import Mathlib

/-!
Verification of the ExecutableEntropy ELF-metadata extractor.

This file gives a shallow embedding of the engine found in
`exentropy/__init__.py`, `exentropy/searchexports.py` and `main.py`:
byte-entropy computation, import/export symbol classification,
symbol-version resolution, shared-library collection, and the HTTP
upload handler.  Theorems at the end settle the specification claims.
-/

namespace ExecutableEntropy

/-! ## Byte buffers and the entropy calculator (`compute_entropy`) -/

/-- A byte, as one character of the Python 2 byte string fed to
`compute_entropy`. -/
abbrev Byte := Fin 256

/-- Python `struct.unpack('h', lo+hi)[0]`: the little-endian signed 16-bit value
of the two bytes `lo`, `hi`. -/
def unpack_h (lo hi : Byte) : ℤ :=
  let u : ℤ := (lo.val : ℤ) + 256 * (hi.val : ℤ)
  if 32768 ≤ u then u - 65536 else u

/-- The histogram key the code computes for one byte:
`struct.unpack('h', byte + "\x00")[0]`. -/
def byte_key (b : Byte) : ℤ := unpack_h b 0

/-- The key list of `map_of_bytes`: one key per buffer byte (the dict
deduplicates; `List.toFinset` below plays the role of the key set). -/
def key_list (text : List Byte) : List ℤ := text.map byte_key

/-- One iteration of the second loop of `compute_entropy`:
`p = count/len; if p > 0: entropy -= p * log(p, 2)`, expressed as the
contribution added for one dict key. -/
noncomputable def entropy_term (count len : ℕ) : ℝ :=
  let p : ℝ := (count : ℝ) / (len : ℝ)
  if 0 < p then -(p * Real.logb 2 p) else 0

/-- The method `ElfInfo.compute_entropy` (identical in `__init__.py` and
`searchexports.py`): build the byte histogram `map_of_bytes`, then sum
`-p·log2 p` over its keys, starting from `entropy = 0`. -/
noncomputable def compute_entropy (text : List Byte) : ℝ :=
  ∑ k in (key_list text).toFinset,
    entropy_term ((key_list text).count k) text.length

lemma byte_key_eq (b : Byte) : byte_key b = (b.val : ℤ) := by
  simp only [byte_key, unpack_h, Fin.val_zero, Nat.cast_zero, mul_zero, add_zero]
  have h : ((b.val : ℤ)) < 32768 := by
    have := b.isLt
    omega
  rw [if_neg (by omega)]

lemma byte_key_injective : Function.Injective byte_key := by
  intro a b hab
  rw [byte_key_eq, byte_key_eq] at hab
  exact Fin.val_injective (by exact_mod_cast hab)

/-- The sum over dict keys equals a sum over the distinct bytes of the
buffer. -/
lemma compute_entropy_eq_sum_bytes (text : List Byte) :
    compute_entropy text
      = ∑ v in text.toFinset, entropy_term (text.count v) text.length := by
  unfold compute_entropy key_list
  have hmap : (text.map byte_key).toFinset = text.toFinset.image byte_key := by
    ext k
    simp [List.mem_toFinset, List.mem_map, Finset.mem_image]
  rw [hmap]
  rw [Finset.sum_image (fun a _ b _ h => byte_key_injective h)]
  refine Finset.sum_congr rfl (fun v _ => ?_)
  rw [List.count_map_of_injective _ _ byte_key_injective]

lemma entropy_term_of_pos {c n : ℕ} (hc : 0 < c) (hn : 0 < n) :
    entropy_term c n = Real.negMulLog ((c : ℝ) / (n : ℝ)) / Real.log 2 := by
  have hp : (0 : ℝ) < (c : ℝ) / (n : ℝ) := by positivity
  unfold entropy_term
  rw [if_pos hp]
  unfold Real.negMulLog Real.logb
  ring

lemma sum_count_eq_length (text : List Byte) :
    ∑ v in text.toFinset, text.count v = text.length := by
  simp

lemma compute_entropy_eq_negMulLog (text : List Byte) :
    compute_entropy text
      = (∑ v in text.toFinset,
          Real.negMulLog ((text.count v : ℝ) / (text.length : ℝ))) / Real.log 2 := by
  rw [compute_entropy_eq_sum_bytes, Finset.sum_div]
  refine Finset.sum_congr rfl fun v hv => ?_
  have hmem : v ∈ text := List.mem_toFinset.mp hv
  have hc : 0 < text.count v := List.count_pos_iff.mpr hmem
  have hn : 0 < text.length := List.length_pos.mpr (List.ne_nil_of_mem hmem)
  exact entropy_term_of_pos hc hn

lemma compute_entropy_nonneg (text : List Byte) : 0 ≤ compute_entropy text := by
  rw [compute_entropy_eq_sum_bytes]
  refine Finset.sum_nonneg fun v hv => ?_
  have hmem : v ∈ text := List.mem_toFinset.mp hv
  have hc : 0 < text.count v := List.count_pos_iff.mpr hmem
  have hn : 0 < text.length := List.length_pos.mpr (List.ne_nil_of_mem hmem)
  have hp : (0 : ℝ) < (text.count v : ℝ) / (text.length : ℝ) := by positivity
  have h1 : (text.count v : ℝ) / (text.length : ℝ) ≤ 1 := by
    rw [div_le_one (by positivity)]
    exact_mod_cast List.count_le_length v text
  unfold entropy_term
  rw [if_pos hp]
  have hlog := Real.logb_nonpos (by norm_num : (1:ℝ) < 2) hp.le h1
  nlinarith [hlog, hp]

lemma compute_entropy_le_eight (text : List Byte) : compute_entropy text ≤ 8 := by
  rcases eq_or_ne text [] with rfl | hne
  · rw [compute_entropy_eq_negMulLog]
    simp
  have hn : 0 < text.length := List.length_pos.mpr hne
  have hcard : 0 < text.toFinset.card := by
    rw [Finset.card_pos]
    exact ⟨text.head hne, List.mem_toFinset.mpr (List.head_mem hne)⟩
  set n : ℕ := text.toFinset.card with hn_def
  have hcard256 : n ≤ 256 := by
    calc n ≤ Finset.univ.card := Finset.card_le_univ _
    _ = 256 := by rw [Finset.card_univ]; exact Fintype.card_fin 256
  have hpsum : ∑ v in text.toFinset, (text.count v : ℝ) / (text.length : ℝ) = 1 := by
    rw [← Finset.sum_div]
    rw [div_eq_one_iff_eq (by positivity)]
    exact_mod_cast sum_count_eq_length text
  have hjensen := Real.concaveOn_negMulLog.le_map_sum
    (t := text.toFinset) (w := fun _ => ((n : ℝ))⁻¹)
    (p := fun v => (text.count v : ℝ) / (text.length : ℝ))
    (fun i _ => by positivity)
    (by
      rw [Finset.sum_const, hn_def, nsmul_eq_mul]
      field_simp)
    (fun i _ => Set.mem_Ici.mpr (by positivity))
  have hsmul_lhs :
      ∑ v in text.toFinset,
          ((n : ℝ))⁻¹ • Real.negMulLog ((text.count v : ℝ) / (text.length : ℝ))
        = ((n : ℝ))⁻¹
            * ∑ v in text.toFinset,
                Real.negMulLog ((text.count v : ℝ) / (text.length : ℝ)) := by
    rw [Finset.mul_sum]
    simp [smul_eq_mul]
  have hsmul_rhs :
      ∑ v in text.toFinset,
          ((n : ℝ))⁻¹ • ((text.count v : ℝ) / (text.length : ℝ)) = ((n : ℝ))⁻¹ := by
    simp only [smul_eq_mul, ← Finset.mul_sum, hpsum, mul_one]
  rw [hsmul_lhs, hsmul_rhs] at hjensen
  have hnegn : Real.negMulLog ((n : ℝ))⁻¹ = ((n : ℝ))⁻¹ * Real.log n := by
    unfold Real.negMulLog
    rw [Real.log_inv]
    ring
  rw [hnegn] at hjensen
  have hnpos : (0 : ℝ) < (n : ℝ) := by exact_mod_cast hcard
  have hsum_le :
      ∑ v in text.toFinset,
          Real.negMulLog ((text.count v : ℝ) / (text.length : ℝ)) ≤ Real.log n := by
    have := mul_le_mul_of_nonneg_left hjensen hnpos.le
    rw [← mul_assoc, ← mul_assoc, mul_inv_cancel₀ hnpos.ne', one_mul, one_mul] at this
    exact this
  rw [compute_entropy_eq_negMulLog]
  have hlog2 : (0 : ℝ) < Real.log 2 := Real.log_pos (by norm_num)
  have hstep : (∑ v in text.toFinset,
      Real.negMulLog ((text.count v : ℝ) / (text.length : ℝ))) / Real.log 2
        ≤ Real.log n / Real.log 2 :=
    div_le_div_of_nonneg_right hsum_le hlog2.le
  refine hstep.trans ?_
  have hlogb : Real.log (n : ℝ) / Real.log 2 = Real.logb 2 (n : ℝ) := rfl
  rw [hlogb]
  have h256 : Real.logb 2 ((256 : ℕ) : ℝ) = 8 := by
    have h2 : ((256 : ℕ) : ℝ) = 2 ^ (8 : ℕ) := by norm_num
    rw [h2, Real.logb, Real.log_pow]
    field_simp
  calc Real.logb 2 (n : ℝ) ≤ Real.logb 2 ((256 : ℕ) : ℝ) := by
        apply Real.logb_le_logb_of_le (by norm_num) (by exact_mod_cast hcard)
        exact_mod_cast hcard256
  _ = 8 := h256

lemma entropy_term_self {c : ℕ} (hc : 0 < c) : entropy_term c c = 0 := by
  unfold entropy_term
  have hp : (0 : ℝ) < (c : ℝ) / (c : ℝ) := by positivity
  rw [if_pos hp]
  rw [div_self (by exact_mod_cast hc.ne')]
  simp

lemma entropy_term_one_sixteen : entropy_term 1 16 = (16 : ℝ)⁻¹ * Real.logb 2 16 := by
  unfold entropy_term
  rw [if_pos (by norm_num)]
  have h : ((1 : ℕ) : ℝ) / ((16 : ℕ) : ℝ) = ((16 : ℝ))⁻¹ := by norm_num
  rw [h, Real.logb_inv]
  ring

lemma logb_two_sixteen : Real.logb 2 (16 : ℝ) = 4 := by
  have h2 : (16 : ℝ) = 2 ^ (4 : ℕ) := by norm_num
  rw [h2, Real.logb, Real.log_pow]
  have hl2 : Real.log 2 ≠ 0 := ne_of_gt (Real.log_pos (by norm_num))
  field_simp

/-- A 16-element buffer of distinct bytes used as the concrete uniform
input of Scenario D. -/
def bytes16 : List Byte :=
  [0, 1, 2, 3, 4, 5, 6, 7, 8, 9, 10, 11, 12, 13, 14, 15]

end ExecutableEntropy

namespace ExecutableEntropy

/-- C2: `compute_entropy` equals the Shannon entropy `-Σ p(v)·log2 p(v)`
over the byte values occurring in the buffer, with `p(v) = count(v)/len(B)`,
and the result lies in the closed interval `[0, 8]`. -/
theorem C2_entropy_shannon_in_zero_eight (text : List Byte) :
    compute_entropy text
      = -∑ v in text.toFinset,
          ((text.count v : ℝ) / (text.length : ℝ))
            * Real.logb 2 ((text.count v : ℝ) / (text.length : ℝ))
    ∧ 0 ≤ compute_entropy text ∧ compute_entropy text ≤ 8 := by
  refine ⟨?_, compute_entropy_nonneg text, compute_entropy_le_eight text⟩
  rw [compute_entropy_eq_sum_bytes, ← Finset.sum_neg_distrib]
  refine Finset.sum_congr rfl fun v hv => ?_
  have hmem : v ∈ text := List.mem_toFinset.mp hv
  have hc : 0 < text.count v := List.count_pos_iff.mpr hmem
  have hn : 0 < text.length := List.length_pos.mpr (List.ne_nil_of_mem hmem)
  have hp : (0 : ℝ) < (text.count v : ℝ) / (text.length : ℝ) := by positivity
  unfold entropy_term
  rw [if_pos hp]

/-- C8: a buffer made of zero or more repetitions of one single byte value
(including the empty buffer) has entropy 0, and a 16-byte buffer of 16
distinct (hence equally frequent) byte values has entropy log2 16 = 4. -/
theorem C8_entropy_constant_zero_uniform16_four (n : ℕ) (v : Byte)
    (text : List Byte) (hlen : text.length = 16) (hnd : text.Nodup) :
    compute_entropy (List.replicate n v) = 0 ∧ compute_entropy text = 4 := by
  constructor
  · rcases Nat.eq_zero_or_pos n with rfl | hn
    · simp [compute_entropy_eq_sum_bytes]
    · rw [compute_entropy_eq_sum_bytes]
      have hfin : (List.replicate n v).toFinset = {v} := by
        ext w
        simp [List.mem_toFinset, List.mem_replicate, hn.ne', eq_comm]
      rw [hfin, Finset.sum_singleton, List.count_replicate_self,
          List.length_replicate]
      exact entropy_term_self hn
  · rw [compute_entropy_eq_sum_bytes]
    have hcount : ∀ w ∈ text.toFinset, entropy_term (text.count w) text.length
        = entropy_term 1 16 := by
      intro w hw
      have hmem : w ∈ text := List.mem_toFinset.mp hw
      rw [List.count_eq_one_of_mem hnd hmem, hlen]
    rw [Finset.sum_congr rfl hcount, Finset.sum_const,
        List.toFinset_card_of_nodup hnd, hlen]
    rw [entropy_term_one_sixteen, logb_two_sixteen]
    norm_num

/-- Witness for C8 at the concrete inputs of Scenario D. -/
theorem C8_witness :
    (bytes16.length = 16 ∧ bytes16.Nodup)
      ∧ compute_entropy (List.replicate 3 (5 : Byte)) = 0
      ∧ compute_entropy bytes16 = 4 :=
  ⟨⟨by decide, by decide⟩,
    C8_entropy_constant_zero_uniform16_four 3 5 bytes16 (by decide) (by decide)⟩

/-- C9: `compute_entropy` is total: the probability `count/len` is formed
only for keys present in the histogram, and for any such key both the count
and the buffer length are positive (so the division is never 0/0), while the
empty buffer falls through both loops to the initial value 0. -/
theorem C9_entropy_total_no_zero_division (text : List Byte) (k : ℤ)
    (hk : k ∈ (key_list text).toFinset) :
    compute_entropy [] = 0
      ∧ 0 < (key_list text).count k ∧ 0 < text.length := by
  have hmem : k ∈ key_list text := List.mem_toFinset.mp hk
  refine ⟨by simp [compute_entropy_eq_sum_bytes], ?_, ?_⟩
  · exact List.count_pos_iff.mpr hmem
  · have : key_list text ≠ [] := List.ne_nil_of_mem hmem
    have hlen : 0 < (key_list text).length := List.length_pos.mpr this
    rwa [key_list, List.length_map] at hlen

/-- Witness for C9 at a concrete two-byte buffer. -/
theorem C9_witness :
    ((0 : ℤ) ∈ (key_list [0, 0]).toFinset)
      ∧ compute_entropy [] = 0
      ∧ 0 < (key_list [0, 0]).count 0 ∧ 0 < ([0, 0] : List Byte).length :=
  ⟨by decide, C9_entropy_total_no_zero_division [0, 0] 0 (by decide)⟩

/-- C10: entropy depends only on the byte histogram: permuting the buffer
never changes `compute_entropy`. -/
theorem C10_entropy_permutation_invariant (b1 b2 : List Byte)
    (h : b1.Perm b2) : compute_entropy b1 = compute_entropy b2 := by
  rw [compute_entropy_eq_sum_bytes, compute_entropy_eq_sum_bytes,
      List.toFinset_eq_of_perm b1 b2 h, h.length_eq]
  exact Finset.sum_congr rfl fun v _ => by rw [h.count_eq]

/-- Witness for C10 at a concrete permutation pair. -/
theorem C10_witness :
    (([1, 2, 2] : List Byte).Perm [2, 1, 2])
      ∧ compute_entropy [1, 2, 2] = compute_entropy [2, 1, 2] :=
  ⟨by decide, C10_entropy_permutation_invariant [1, 2, 2] [2, 1, 2] (by decide)⟩

/-! ## Symbol tables and the import/export classifiers -/

/-- The `st_shndx` field of a symbol as pyelftools presents it: one of the
special sentinels, or a plain section index. -/
inductive Shndx where
  | undef : Shndx
  | absolute : Shndx
  | common : Shndx
  | index (n : ℕ) : Shndx
deriving DecidableEq

/-- Python `'%3s' % x`: right-justify a string to a minimum width of three. -/
def pad3 (s : String) : String :=
  String.mk (List.replicate (3 - s.length) ' ') ++ s

/-- pyelftools `describe_symbol_shndx`: the dictionary of sentinel short
names (`SHN_UNDEF`, `SHN_ABS`, `SHN_COMMON`), defaulting to a plain index
rendered with `'%3s' % x`. -/
def describe_symbol_shndx : Shndx → String
  | .undef => "UND"
  | .absolute => "ABS"
  | .common => "COM"
  | .index n => pad3 (toString n)

/-- Python `s.strip()` on the strings in play (whose only whitespace is
the ASCII space added by `'%3s'`), over the character list. -/
def py_strip (s : String) : String :=
  String.mk
    (((s.data.dropWhile (fun c => c == ' ')).reverse.dropWhile
        (fun c => c == ' ')).reverse)

/-- Python `int(s)` on the strings `describe_symbol_shndx` can produce:
strip surrounding whitespace, then parse a nonempty digit string in base
10; `none` models the `ValueError` the wrapping `try` catches. -/
def python_int (s : String) : Option ℕ :=
  let cs := (py_strip s).data
  if cs ≠ [] ∧ cs.all Char.isDigit then
    some (cs.foldl (fun n c => n * 10 + (c.toNat - ('0').toNat)) 0)
  else none

/-- Python `s.startswith(p)`, over the character lists. -/
def py_startswith (s p : String) : Bool := p.data.isPrefixOf s.data

/-- pyelftools `describe_symbol_type`: the `_DESCR_ST_INFO_TYPE`
dictionary of short names, `.get` defaulting to an unknown marker. -/
def describe_symbol_type (t : String) : String :=
  if t == "STT_NOTYPE" then "NOTYPE"
  else if t == "STT_OBJECT" then "OBJECT"
  else if t == "STT_FUNC" then "FUNC"
  else if t == "STT_SECTION" then "SECTION"
  else if t == "STT_FILE" then "FILE"
  else if t == "STT_COMMON" then "COMMON"
  else if t == "STT_TLS" then "TLS"
  else "<unknown>"

/-- One symbol-table entry, restricted to the fields the classifiers
read: `symbol.name`, `symbol['st_info']['type']`, `symbol['st_shndx']`. -/
structure Symbol where
  name : String
  st_info_type : String
  st_shndx : Shndx
deriving DecidableEq

/-- One symbol-table section: its `sh_entsize` header field and its
symbols in iteration order. -/
structure SymbolTable where
  sh_entsize : ℕ
  symbols : List Symbol
deriving DecidableEq

/-- Per-symbol step of `searchexports.ElfInfo.display_symbol_tables`:
for a FUNC symbol, `imports.add(name)` when the described section index is
`"UND"`, and `exports.add(str(name))` unconditionally (the surrounding
`try` can never raise `ValueError`). -/
def se_step (st : Finset String × Finset String) (sym : Symbol) :
    Finset String × Finset String :=
  if describe_symbol_type sym.st_info_type == "FUNC" then
    let imports := if describe_symbol_shndx sym.st_shndx == "UND"
      then insert sym.name st.1 else st.1
    (imports, insert sym.name st.2)
  else st

/-- Per-table step of the same loop: tables whose `sh_entsize` is zero are
skipped. -/
def se_table_step (st : Finset String × Finset String) (tbl : SymbolTable) :
    Finset String × Finset String :=
  if tbl.sh_entsize == 0 then st else tbl.symbols.foldl se_step st

/-- The method `searchexports.ElfInfo.display_symbol_tables`: the
`(imports, exports)` pair stored into `data`. -/
def se_display_symbol_tables (tables : List SymbolTable) :
    Finset String × Finset String :=
  tables.foldl se_table_step (∅, ∅)

/-- Per-symbol step of `__init__.ElfInfo.display_symbol_tables`: for a
FUNC symbol, `imports.add(name)` when the described index is `"UND"`;
then `try: x = int(x); if name.startswith("Java_"): jexports.add(name)`,
the `except ValueError` discarding symbols whose index does not parse. -/
def init_step (st : Finset String × Finset String) (sym : Symbol) :
    Finset String × Finset String :=
  if describe_symbol_type sym.st_info_type == "FUNC" then
    let imports := if describe_symbol_shndx sym.st_shndx == "UND"
      then insert sym.name st.1 else st.1
    let jexports := match python_int (describe_symbol_shndx sym.st_shndx) with
      | some _ =>
          if py_startswith sym.name "Java_" then insert sym.name st.2 else st.2
      | none => st.2
    (imports, jexports)
  else st

/-- Per-table step of `__init__.py`: identical `sh_entsize == 0` skip. -/
def init_table_step (st : Finset String × Finset String)
    (tbl : SymbolTable) : Finset String × Finset String :=
  if tbl.sh_entsize == 0 then st else tbl.symbols.foldl init_step st

/-- The method `__init__.ElfInfo.display_symbol_tables`: the `(imports, jexports)`
pair stored into `data` (this variant computes no `exports` set). -/
def init_display_symbol_tables (tables : List SymbolTable) :
    Finset String × Finset String :=
  tables.foldl init_table_step (∅, ∅)

lemma foldl_rel {α σ₁ σ₂ : Type} (P : σ₁ → σ₂ → Prop)
    (f : σ₁ → α → σ₁) (g : σ₂ → α → σ₂)
    (hstep : ∀ s t a, P s t → P (f s a) (g t a)) :
    ∀ (l : List α) (s : σ₁) (t : σ₂), P s t → P (l.foldl f s) (l.foldl g t) := by
  intro l
  induction l with
  | nil => intro s t h; exact h
  | cons a l ih => intro s t h; exact ih _ _ (hstep s t a h)

/-- The classifier invariant relating the `__init__.py` state to the
`searchexports.py` state on the same input: every collected `jexports`
name carries the `Java_` marker and is already in `exports`. -/
def ClassInv (a b : Finset String × Finset String) : Prop :=
  (∀ n ∈ a.2, "Java_".data <+: n.data) ∧ a.2 ⊆ b.2

lemma class_inv_step (s t : Finset String × Finset String) (sym : Symbol)
    (h : ClassInv s t) : ClassInv (init_step s sym) (se_step t sym) := by
  obtain ⟨hj, hsub⟩ := h
  unfold init_step se_step
  by_cases hf : describe_symbol_type sym.st_info_type == "FUNC"
  · simp only [hf, if_true]
    constructor
    · intro n hn
      rcases hp : python_int (describe_symbol_shndx sym.st_shndx) with _ | k
      · rw [hp] at hn
        exact hj n hn
      · rw [hp] at hn
        by_cases hjava : py_startswith sym.name "Java_"
        · rw [if_pos hjava] at hn
          rcases Finset.mem_insert.mp hn with rfl | hn
          · exact List.isPrefixOf_iff_prefix.mp hjava
          · exact hj n hn
        · rw [if_neg hjava] at hn
          exact hj n hn
    · intro n hn
      rcases hp : python_int (describe_symbol_shndx sym.st_shndx) with _ | k
      · rw [hp] at hn
        exact Finset.mem_insert_of_mem (hsub hn)
      · rw [hp] at hn
        by_cases hjava : py_startswith sym.name "Java_"
        · rw [if_pos hjava] at hn
          rcases Finset.mem_insert.mp hn with rfl | hn
          · exact Finset.mem_insert_self _ _
          · exact Finset.mem_insert_of_mem (hsub hn)
        · rw [if_neg hjava] at hn
          exact Finset.mem_insert_of_mem (hsub hn)
  · simp only [hf, if_false]
    exact ⟨hj, hsub⟩

lemma class_inv_table_step (s t : Finset String × Finset String)
    (tbl : SymbolTable) (h : ClassInv s t) :
    ClassInv (init_table_step s tbl) (se_table_step t tbl) := by
  unfold init_table_step se_table_step
  by_cases hz : tbl.sh_entsize == 0
  · simp only [hz, if_true]
    exact h
  · simp only [hz, if_false]
    exact foldl_rel ClassInv init_step se_step class_inv_step tbl.symbols s t h

/-- C6: every name collected into `jexports` starts with `Java_` and is a
member of the `exports` set the export classifier computes from the same
symbol tables. -/
theorem C6_jexports_java_and_subset_exports (tables : List SymbolTable)
    (n : String) (hn : n ∈ (init_display_symbol_tables tables).2) :
    "Java_".data <+: n.data
      ∧ n ∈ (se_display_symbol_tables tables).2 := by
  have hinv : ClassInv (init_display_symbol_tables tables)
      (se_display_symbol_tables tables) := by
    unfold init_display_symbol_tables se_display_symbol_tables
    exact foldl_rel ClassInv init_table_step se_table_step
      class_inv_table_step tables (∅, ∅) (∅, ∅)
      ⟨fun n hn => absurd hn (Finset.not_mem_empty n), Finset.empty_subset _⟩
  exact ⟨hinv.1 n hn, hinv.2 hn⟩

/-- The concrete symbol tables of Scenario A: one defined JNI function. -/
def tablesA : List SymbolTable :=
  [⟨24, [⟨"Java_com_x_y_foo", "STT_FUNC", Shndx.index 7⟩]⟩]

/-- Witness for C6 at the Scenario A input. -/
theorem C6_witness :
    ("Java_com_x_y_foo" ∈ (init_display_symbol_tables tablesA).2)
      ∧ ("Java_".data <+: "Java_com_x_y_foo".data
          ∧ "Java_com_x_y_foo" ∈ (se_display_symbol_tables tablesA).2) :=
  ⟨by decide,
    C6_jexports_java_and_subset_exports tablesA "Java_com_x_y_foo" (by decide)⟩

/-- C1: the export classifier of `searchexports.py` adds every FUNC
symbol's name to `exports` regardless of the undefined/defined index test,
so the undefined FUNC symbol `printf` lands in `imports` and `exports` of
the same run — the mutual-exclusion claim fails on this code. -/
theorem C1_undefined_func_lands_in_both_sets :
    "printf" ∈ (se_display_symbol_tables
        [⟨24, [⟨"printf", "STT_FUNC", Shndx.undef⟩]⟩]).1
      ∧ "printf" ∈ (se_display_symbol_tables
        [⟨24, [⟨"printf", "STT_FUNC", Shndx.undef⟩]⟩]).2 := by
  constructor <;> decide

/-! ## The symbol version resolver (`_symbol_version`) -/

/-- A per-symbol version index as pyelftools yields `symbol.entry['ndx']`:
one of the two sentinel strings, or a number. -/
inductive VerNdx where
  | ndx_local : VerNdx
  | ndx_global : VerNdx
  | num (n : ℕ) : VerNdx
deriving DecidableEq

/-- One version definition of the VerDef section: its `vd_ndx` and the
names of its verdaux auxiliary records (the first is the version's own
name). -/
structure VerdefEntry where
  vd_ndx : ℕ
  aux_names : List String
deriving DecidableEq

/-- The GNU VerDef section as `_symbol_version` consumes it. -/
structure VerdefSection where
  entries : List VerdefEntry
deriving DecidableEq

/-- pyelftools `GNUVerDefSection.num_versions()`. -/
def verdef_num_versions (s : VerdefSection) : ℕ := s.entries.length

/-- pyelftools `GNUVerDefSection.get_version(idx)`: linear search for
`vd_ndx == idx`, returning the verdef record and its verdaux iterator, or
`None` when no entry matches. -/
def verdef_get_version (s : VerdefSection) (idx : ℕ) :
    Option (VerdefEntry × List String) :=
  (s.entries.find? (fun e => e.vd_ndx == idx)).map (fun e => (e, e.aux_names))

/-- One vernaux auxiliary record of a VerNeed entry. -/
structure VernauxEntry where
  vna_other : ℕ
  name : String
deriving DecidableEq

/-- One verneed record: the needed file's name and its vernaux records. -/
structure VerneedEntry where
  name : String
  aux : List VernauxEntry
deriving DecidableEq

/-- The GNU VerNeed section as `_symbol_version` consumes it. -/
structure VerneedSection where
  entries : List VerneedEntry
deriving DecidableEq

/-- pyelftools `GNUVerNeedSection.get_version(idx)`: search every
(verneed, vernaux) pair for `vna_other == idx`; `None` when absent. -/
def verneed_get_version (s : VerneedSection) (idx : ℕ) :
    Option (VerneedEntry × VernauxEntry) :=
  s.entries.findSome? (fun vn =>
    (vn.aux.find? (fun a => a.vna_other == idx)).map (fun a => (vn, a)))

/-- The `_versioninfo` dict `_init_versioninfo` builds: the three optional
version sections and the derived scheme tag (`'GNU'`, `'Solaris'`, or
`None`). -/
structure VersionInfo where
  versym : Option (List VerNdx)
  verdef : Option VerdefSection
  verneed : Option VerneedSection
  vtype : Option String
deriving DecidableEq

/-- Run-time failures `_symbol_version` can raise: `TypeError` from
unpacking the `None` a provider `get_version` returned, `AttributeError`
from calling `get_version` on the absent (`None`) VerNeed section, and
`StopIteration` from `next()` on an empty verdaux iterator. -/
inductive PyError where
  | unpackNone : PyError
  | noneAttr : PyError
  | stopIteration : PyError
deriving DecidableEq

/-- The local `symbol_version` dict of `_symbol_version`
(`dict.fromkeys(('index', 'name', 'filename', 'hidden'))`): every field
starts as `None`. -/
structure SymbolVersion where
  index : Option VerNdx
  name : Option String
  filename : Option String
  hidden : Option Bool
deriving DecidableEq

/-- The body of `__init__.ElfInfo._symbol_version` past the
missing-versym guard: the value of the local `symbol_version` dict at the
final `return` statement, for the version index `ndx` read from the
VerSym entry, or the exception raised on the way there. -/
def symbol_version_state (vi : VersionInfo) (ndx : VerNdx) :
    Except PyError SymbolVersion :=
  match ndx with
  | .ndx_local => .ok ⟨some .ndx_local, none, none, none⟩
  | .ndx_global => .ok ⟨some .ndx_global, none, none, none⟩
  | .num raw =>
    let isHidden : Bool := vi.vtype == some "GNU" && raw &&& 0x8000 != 0
    let index : ℕ := if isHidden then raw ^^^ 0x8000 else raw
    let hidden : Option Bool := if isHidden then some true else none
    let verneed_branch : Except PyError SymbolVersion :=
      match vi.verneed with
      | none => .error .noneAttr
      | some vn =>
        match verneed_get_version vn index with
        | none => .error .unpackNone
        | some (vne, vna) =>
            .ok ⟨some (.num index), some vna.name, some vne.name, hidden⟩
    match vi.verdef with
    | some vd =>
      if index ≤ verdef_num_versions vd then
        match verdef_get_version vd index with
        | none => .error .unpackNone
        | some (_, auxNames) =>
          match auxNames with
          | [] => .error .stopIteration
          | a :: _ => .ok ⟨some (.num index), some a, none, hidden⟩
      else verneed_branch
    | none => verneed_branch

/-- The method `__init__.ElfInfo._symbol_version`: `None` when there is no VerSym
section or `nsym` is out of range; otherwise the body above runs, but the
function's final statement is a bare `return`, so every non-raising path
hands the caller `None`. -/
def init_symbol_version (vi : VersionInfo) (nsym : ℕ) :
    Except PyError (Option SymbolVersion) :=
  match vi.versym with
  | none => .ok none
  | some entries =>
    if h : nsym < entries.length then
      match symbol_version_state vi (entries.get ⟨nsym, h⟩) with
      | .error e => .error e
      | .ok _ => .ok none
    else .ok none

/-- The version-info bundle used to exercise the GNU hidden-bit path: a
VerSym entry with raw index `0x8002`, and a VerDef section defining
versions 1 and 2. -/
def viHidden : VersionInfo :=
  ⟨some [VerNdx.num 0x8002],
   some ⟨[⟨1, ["VDEF_ONE"]⟩, ⟨2, ["VDEF_TWO"]⟩]⟩,
   none,
   some "GNU"⟩

/-- C3: under the GNU scheme a raw index with bit 15 set is processed
into hidden = True with the bit cleared — the dict `_symbol_version`
builds holds exactly that — but the function ends with a bare `return`,
so the caller receives `None` instead of that descriptor (the docstring
promises the dict). -/
theorem C3_hidden_bit_descriptor_discarded :
    symbol_version_state viHidden (VerNdx.num 0x8002)
        = .ok ⟨some (VerNdx.num 2), some "VDEF_TWO", none, some true⟩
      ∧ init_symbol_version viHidden 0 = .ok none :=
  ⟨rfl, rfl⟩

/-- The version-info bundle for an index resolvable by neither VerDef
(absent) nor VerNeed (present, but only defining index 2). -/
def viMiss : VersionInfo :=
  ⟨some [VerNdx.num 5],
   none,
   some ⟨[⟨"libc.so.6", [⟨2, "GLIBC_2.2.5"⟩]⟩]⟩,
   some "GNU"⟩

/-- Like `viMiss` but with the VerNeed section absent as well. -/
def viMissNoNeed : VersionInfo :=
  ⟨some [VerNdx.num 5], none, none, some "GNU"⟩

/-- C4: for an effective index outside the VerDef range and not found in
VerNeed, `_symbol_version` does not degrade to an absent-name descriptor:
it raises — a `TypeError` unpacking the `None` that
`GNUVerNeedSection.get_version` returned, or an `AttributeError` when the
VerNeed section itself is absent. -/
theorem C4_unresolved_index_raises :
    init_symbol_version viMiss 0 = .error PyError.unpackNone
      ∧ init_symbol_version viMissNoNeed 0 = .error PyError.noneAttr :=
  ⟨rfl, rfl⟩

/-! ## Shared-library collection (`display_dynamic_tags` /
`collect_sharedlib`) -/

/-- A dynamic tag as `iter_tags` yields it: its `d_tag` key and, for
`DT_NEEDED` tags, the referenced library name. -/
structure DynTag where
  d_tag : String
  needed : String
deriving DecidableEq

/-- A section of the container, as far as the shared-library scan looks
at it: the Dynamic Section with its tags, or anything else. -/
inductive ElfSection where
  | dynamic (tags : List DynTag) : ElfSection
  | other : ElfSection
deriving DecidableEq

/-- The `shlib` set one Dynamic Section contributes: the deduplicated
`tag.needed` of its `DT_NEEDED` tags. -/
def needed_set (tags : List DynTag) : Finset String :=
  ((tags.filter (fun t => t.d_tag == "DT_NEEDED")).map DynTag.needed).toFinset

/-- One iteration of the section loop of
`__init__.ElfInfo.display_dynamic_tags` /
`searchexports.ElfInfo.collect_sharedlib`: non-Dynamic sections are
skipped; a Dynamic Section assigns `data["shlib"]`. -/
def shlib_step (acc : Option (Finset String)) (s : ElfSection) :
    Option (Finset String) :=
  match s with
  | .dynamic tags => some (needed_set tags)
  | .other => acc

/-- The whole scan: `data` starts without a `"shlib"` key (`none`), and
only a Dynamic Section ever assigns it. -/
def collect_sharedlib (sections : List ElfSection) : Option (Finset String) :=
  sections.foldl shlib_step none

lemma shlib_foldl_other (l : List ElfSection) (acc : Option (Finset String))
    (h : ∀ s ∈ l, s = ElfSection.other) : l.foldl shlib_step acc = acc := by
  induction l generalizing acc with
  | nil => rfl
  | cons a l ih =>
    have ha : a = ElfSection.other := h a (List.mem_cons_self a l)
    subst ha
    exact ih acc (fun s hs => h s (List.mem_cons_of_mem _ hs))

/-- Counterexample to C5 as stated: with no Dynamic Section present the
`"shlib"` key is never assigned — the report has no `shlib` field at all,
rather than an empty set. -/
theorem C5_counterexample_no_dynamic_section :
    collect_sharedlib [ElfSection.other] = none
      ∧ collect_sharedlib [ElfSection.other] ≠ some (∅ : Finset String) :=
  ⟨rfl, fun h => Option.noConfusion h⟩

/-- C5 (amended): when a Dynamic Section is present, `shlib` equals
exactly the deduplicated `DT_NEEDED` entries of the last such section;
when no Dynamic Section exists, the scan terminates without error but
leaves the `shlib` field unset. -/
theorem C5_shlib_needed_of_last_dynamic (sections pre post : List ElfSection)
    (tags : List DynTag) (ss : List ElfSection)
    (h1 : sections = pre ++ ElfSection.dynamic tags :: post)
    (h2 : ∀ s ∈ post, s = ElfSection.other)
    (h3 : ∀ s ∈ ss, s = ElfSection.other) :
    collect_sharedlib sections = some (needed_set tags)
      ∧ collect_sharedlib ss = none := by
  constructor
  · unfold collect_sharedlib
    rw [h1, List.foldl_append]
    have hcons : (ElfSection.dynamic tags :: post).foldl shlib_step
        (pre.foldl shlib_step none) = post.foldl shlib_step
          (some (needed_set tags)) := rfl
    rw [hcons, shlib_foldl_other post _ h2]
  · exact shlib_foldl_other ss none h3

/-- Witness for C5 at a concrete section list with one Dynamic Section
holding a duplicated NEEDED entry and one unrelated tag. -/
theorem C5_witness :
    ([ElfSection.other,
        ElfSection.dynamic [⟨"DT_NEEDED", "libc.so"⟩, ⟨"DT_SONAME", "x"⟩,
          ⟨"DT_NEEDED", "libc.so"⟩]]
      = [ElfSection.other]
          ++ ElfSection.dynamic [⟨"DT_NEEDED", "libc.so"⟩, ⟨"DT_SONAME", "x"⟩,
              ⟨"DT_NEEDED", "libc.so"⟩] :: [])
      ∧ collect_sharedlib
          [ElfSection.other,
            ElfSection.dynamic [⟨"DT_NEEDED", "libc.so"⟩, ⟨"DT_SONAME", "x"⟩,
              ⟨"DT_NEEDED", "libc.so"⟩]]
          = some (needed_set [⟨"DT_NEEDED", "libc.so"⟩, ⟨"DT_SONAME", "x"⟩,
              ⟨"DT_NEEDED", "libc.so"⟩])
      ∧ collect_sharedlib [ElfSection.other] = none :=
  ⟨rfl,
    C5_shlib_needed_of_last_dynamic _ [ElfSection.other] []
      [⟨"DT_NEEDED", "libc.so"⟩, ⟨"DT_SONAME", "x"⟩, ⟨"DT_NEEDED", "libc.so"⟩]
      [ElfSection.other] rfl
      (fun s hs => absurd hs (List.not_mem_nil s))
      (fun s hs => by
        rcases List.mem_singleton.mp hs with rfl
        rfl)⟩

/-! ## The HTTP upload handler (`main.submit_elf`) -/

/-- One `(name, size, flags, entro)` record of the report. -/
structure SectionRecord where
  name : String
  size : ℕ
  flags : ℕ
  entro : ℝ

/-- The report record `ElfInfo.data`, with the schema of the exposed
JSON. -/
structure Report where
  arch : ℕ
  imports : List String
  exports : List String
  jexports : List String
  shlib : List String
  sections : List SectionRecord
  segments : List SectionRecord

/-- An HTTP response of the upload service: either the report as JSON, or
the generic error object one of the `@app.errorhandler` translators
produces. -/
inductive HttpResponse where
  | jsonReport (status : ℕ) (r : Report)
  | jsonError (status : ℕ) (message : String)

/-- The upload request as `submit_elf` inspects it: whether
`request.files` carries a `'file'` entry, and that entry's filename. -/
structure UploadRequest where
  hasFileField : Bool
  filename : String

/-- The view `main.submit_elf` together with the 400/500 error handlers.
`analyze` abstracts the engine invocation on the saved upload
(`ElfInfo(tmp_file)`, `get_infos()`, `get_data()`), whose exception the
handler re-raises as `InternalServerError`.  A missing `'file'` field or
a filename that strips to empty raises `BadRequest` before analysis. -/
def submit_elf (analyze : Except String Report) (req : UploadRequest) :
    HttpResponse :=
  if !req.hasFileField then
    .jsonError 400 "Error 400 - Bad Request"
  else if py_strip req.filename == "" then
    .jsonError 400 "Error 400 - Bad Request"
  else
    match analyze with
    | .ok r => .jsonReport 200 r
    | .error _ => .jsonError 500 "Error 500 - Internal Server Error"

/-- C7: a request with the file field present and a non-blank filename
whose analysis succeeds gets the report as JSON with status 200; a
missing file field or blank filename gets the error object with status
400; an analysis-time failure gets the error object with status 500. -/
theorem C7_upload_response_statuses (analyze : Except String Report)
    (req : UploadRequest) (r : Report) (e : String) :
    (req.hasFileField = true → py_strip req.filename ≠ "" →
        analyze = .ok r → submit_elf analyze req = .jsonReport 200 r)
      ∧ (req.hasFileField = false ∨ py_strip req.filename = "" →
          submit_elf analyze req = .jsonError 400 "Error 400 - Bad Request")
      ∧ (req.hasFileField = true → py_strip req.filename ≠ "" →
          analyze = .error e →
            submit_elf analyze req
              = .jsonError 500 "Error 500 - Internal Server Error") := by
  refine ⟨?_, ?_, ?_⟩
  · intro hf hname hok
    unfold submit_elf
    rw [hf, hok]
    simp only [Bool.not_true, Bool.false_eq_true, if_false]
    rw [if_neg (by simpa using hname)]
  · intro hbad
    unfold submit_elf
    rcases hbad with hf | hname
    · rw [hf]
      simp
    · by_cases hf : req.hasFileField
      · rw [hf]
        simp only [Bool.not_true, Bool.false_eq_true, if_false]
        rw [if_pos (by simpa using hname)]
      · simp [hf]
  · intro hf hname herr
    unfold submit_elf
    rw [hf, herr]
    simp only [Bool.not_true, Bool.false_eq_true, if_false]
    rw [if_neg (by simpa using hname)]

/-- The trivial report used by the C7 witness. -/
def emptyReport : Report := ⟨64, [], [], [], [], [], []⟩

/-- Witness for C7 at concrete requests on the three paths. -/
theorem C7_witness :
    submit_elf (.ok emptyReport) ⟨true, "a.so"⟩
        = .jsonReport 200 emptyReport
      ∧ submit_elf (.ok emptyReport) ⟨false, "a.so"⟩
          = .jsonError 400 "Error 400 - Bad Request"
      ∧ submit_elf (.ok emptyReport) ⟨true, "  "⟩
          = .jsonError 400 "Error 400 - Bad Request"
      ∧ submit_elf (.error "bad magic") ⟨true, "a.so"⟩
          = .jsonError 500 "Error 500 - Internal Server Error" :=
  ⟨(C7_upload_response_statuses (.ok emptyReport) ⟨true, "a.so"⟩ emptyReport
      "e").1 rfl (by decide) rfl,
   (C7_upload_response_statuses (.ok emptyReport) ⟨false, "a.so"⟩ emptyReport
      "e").2.1 (Or.inl rfl),
   (C7_upload_response_statuses (.ok emptyReport) ⟨true, "  "⟩ emptyReport
      "e").2.1 (Or.inr (by decide)),
   (C7_upload_response_statuses (.error "bad magic") ⟨true, "a.so"⟩
      emptyReport "bad magic").2.2 rfl (by decide) rfl⟩

end ExecutableEntropy
